import Mathlib

/-!
Verification development for the Utility_Bill_Split repository.

The Python source is shallowly embedded: pure parsing code becomes Lean
functions over `List Char`; the SQLite-backed ledger becomes explicit state
passing over a `LedgerState`; monetary values (Python floats holding dollar
amounts) are modelled as exact rationals `Rat`; SQLite `CURRENT_TIMESTAMP`
is modelled as a strictly increasing counter carried in the state.
-/

/- ===================== Extractor (config/pge_patterns.py) =====================

The seven amount patterns, six date patterns and two period patterns are
fixed regular expressions whose only quantifiers (`\d+`, `\d{2}`, `\d{4}`,
`\s*`, `[:\s]*`) range over single-character classes, and in every pattern
the token that follows a quantified class is a character outside that class.
Hence Python re backtracking never changes the match: maximal munch per
token is equivalent, and the matcher below is deterministic.  `re.search`
with `re.IGNORECASE` is modelled by trying every start position left to
right and comparing literals case-insensitively. -/

/-- Character class used by the PGE patterns: `\d`, `\s`, or `[:\s]`. -/
inductive CClass
  | digit
  | space
  | colonOrSpace
deriving DecidableEq, Repr

/-- Python `\s`: space, tab, newline, carriage return, vertical tab, form feed. -/
def isPySpace (c : Char) : Bool :=
  c == ' ' || c == '\t' || c == '\n' || c == '\r' || c == '\x0b' || c == '\x0c'

def inClass : CClass → Char → Bool
  | CClass.digit, c => c.isDigit
  | CClass.space, c => isPySpace c
  | CClass.colonOrSpace, c => c == ':' || isPySpace c

/-- One token of a PGE pattern: a case-insensitive literal, `cl*`, `cl+`,
or `cl\x7bn\x7d` (written `rep n cl`). -/
inductive Tok
  | lit (cs : List Char)
  | star (cl : CClass)
  | plus (cl : CClass)
  | rep (n : Nat) (cl : CClass)
deriving DecidableEq, Repr

/-- Case-insensitive character comparison (re.IGNORECASE). -/
def lowerEq (a b : Char) : Bool := a.toLower == b.toLower

/-- Consume a case-insensitive literal; return the rest of the input. -/
def takeLit : List Char → List Char → Option (List Char)
  | [], s => some s
  | _ :: _, [] => none
  | l :: ls, c :: cs => if lowerEq l c then takeLit ls cs else none

/-- Maximal munch for `cl*` (total: zero repetitions always succeed). -/
def takeStar (cl : CClass) : List Char → List Char
  | [] => []
  | c :: cs => if inClass cl c then takeStar cl cs else c :: cs

/-- Consume exactly `n` characters of class `cl`. -/
def takeRep : Nat → CClass → List Char → Option (List Char)
  | 0, _, s => some s
  | _ + 1, _, [] => none
  | n + 1, cl, c :: cs => if inClass cl c then takeRep n cl cs else none

/-- Maximal munch for `cl+` (at least one character). -/
def takePlus (cl : CClass) : List Char → Option (List Char)
  | [] => none
  | c :: cs => if inClass cl c then some (takeStar cl cs) else none

def matchTok : Tok → List Char → Option (List Char)
  | Tok.lit ls, s => takeLit ls s
  | Tok.star cl, s => some (takeStar cl s)
  | Tok.plus cl, s => takePlus cl s
  | Tok.rep n cl, s => takeRep n cl s

def matchToks : List Tok → List Char → Option (List Char)
  | [], s => some s
  | t :: ts, s =>
    match matchTok t s with
    | none => none
    | some r => matchToks ts r

/-- A segment of a pattern: a run of tokens, marked when it is a capture
group.  A full pattern is a `List Seg`. -/
structure Seg where
  isGroup : Bool
  toks : List Tok
deriving DecidableEq, Repr

def Seg.raw (ts : List Tok) : Seg := ⟨false, ts⟩

def Seg.grp (ts : List Tok) : Seg := ⟨true, ts⟩

/-- Match a pattern at the start of the input, returning the list of
captured substrings (group 1, group 2, ...). -/
def runSegs : List Seg → List Char → Option (List (List Char))
  | [], _ => some []
  | sg :: rest, s =>
    match matchToks sg.toks s with
    | none => none
    | some r =>
      match runSegs rest r with
      | none => none
      | some caps =>
        some (if sg.isGroup then s.take (s.length - r.length) :: caps else caps)

/-- `re.search`: try the pattern at every start position, leftmost first. -/
def searchPat (p : List Seg) : List Char → Option (List (List Char))
  | [] => runSegs p []
  | c :: cs =>
    match runSegs p (c :: cs) with
    | some caps => some caps
    | none => searchPat p cs

/-- First pattern of the ordered list that matches wins. -/
def searchFirst : List (List Seg) → List Char → Option (List (List Char))
  | [], _ => none
  | p :: ps, s =>
    match searchPat p s with
    | some caps => some caps
    | none => searchFirst ps s

/-- The capture group `(\d+\.\d\x7b2\x7d)` shared by all amount patterns. -/
def dollarGroup : List Tok :=
  [Tok.plus CClass.digit, Tok.lit ['.'], Tok.rep 2 CClass.digit]

/-- The capture group `(\d\x7b2\x7d/\d\x7b2\x7d/\d\x7b4\x7d)` shared by all
date patterns. -/
def dateGroup : List Tok :=
  [Tok.rep 2 CClass.digit, Tok.lit ['/'], Tok.rep 2 CClass.digit,
   Tok.lit ['/'], Tok.rep 4 CClass.digit]

/-- `PGEPatterns.AMOUNT_PATTERNS`, in source order. -/
def AMOUNT_PATTERNS : List (List Seg) :=
  [ [Seg.raw [Tok.lit "statement balance:".data, Tok.star CClass.space, Tok.lit ['$']],
     Seg.grp dollarGroup],
    [Seg.raw [Tok.lit "amount due".data, Tok.star CClass.colonOrSpace, Tok.lit ['$']],
     Seg.grp dollarGroup],
    [Seg.raw [Tok.lit "total amount due".data, Tok.star CClass.colonOrSpace, Tok.lit ['$']],
     Seg.grp dollarGroup],
    [Seg.raw [Tok.lit "current charges".data, Tok.star CClass.colonOrSpace, Tok.lit ['$']],
     Seg.grp dollarGroup],
    [Seg.raw [Tok.lit "**$".data], Seg.grp dollarGroup, Seg.raw [Tok.lit "**".data]],
    [Seg.raw [Tok.lit "<strong>$".data], Seg.grp dollarGroup, Seg.raw [Tok.lit "</strong>".data]],
    [Seg.raw [Tok.lit ['$']], Seg.grp dollarGroup, Seg.raw [Tok.lit "</strong>".data]] ]

/-- `PGEPatterns.DATE_PATTERNS`, in source order. -/
def DATE_PATTERNS : List (List Seg) :=
  [ [Seg.raw [Tok.lit "payment due date:".data, Tok.star CClass.space], Seg.grp dateGroup],
    [Seg.raw [Tok.lit "due date".data, Tok.star CClass.colonOrSpace], Seg.grp dateGroup],
    [Seg.raw [Tok.lit "due by".data, Tok.star CClass.colonOrSpace], Seg.grp dateGroup],
    [Seg.raw [Tok.lit "**".data], Seg.grp dateGroup,
     Seg.raw [Tok.star CClass.space, Tok.lit "**".data]],
    [Seg.raw [Tok.lit "<strong>".data], Seg.grp dateGroup,
     Seg.raw [Tok.star CClass.space, Tok.lit "</strong>".data]],
    [Seg.grp dateGroup, Seg.raw [Tok.star CClass.space, Tok.lit "</strong>".data]] ]

/-- `PGEPatterns.PERIOD_PATTERNS`, in source order. -/
def PERIOD_PATTERNS : List (List Seg) :=
  [ [Seg.raw [Tok.lit "bill period".data, Tok.star CClass.colonOrSpace], Seg.grp dateGroup,
     Seg.raw [Tok.star CClass.space, Tok.lit ['-'], Tok.star CClass.space], Seg.grp dateGroup],
    [Seg.raw [Tok.lit "service period".data, Tok.star CClass.colonOrSpace], Seg.grp dateGroup,
     Seg.raw [Tok.star CClass.space, Tok.lit "to".data, Tok.star CClass.space], Seg.grp dateGroup] ]

/-- Value of a digit string, most significant first. -/
def natOfDigits (l : List Char) : Nat :=
  l.foldl (fun n c => n * 10 + (c.toNat - 48)) 0

/-- Python `float(...)` applied to a captured `d+.dd` string, as an exact
rational number of dollars: integer part plus fractional part over the
matching power of ten. -/
def floatOfDollarStr (s : List Char) : Rat :=
  let ip := s.takeWhile (fun c => c != '.')
  let fp := (s.dropWhile (fun c => c != '.')).drop 1
  mkRat (natOfDigits ip * 10 ^ fp.length + natOfDigits fp) (10 ^ fp.length)

/-- `PGEPatterns.extract_amount`: first matching amount pattern wins. -/
def extract_amount (text : String) : Option Rat :=
  match searchFirst AMOUNT_PATTERNS text.data with
  | some caps => some (floatOfDollarStr (caps.headD []))
  | none => none

/-- `PGEPatterns.extract_due_date`: first matching date pattern wins. -/
def extract_due_date (text : String) : Option String :=
  match searchFirst DATE_PATTERNS text.data with
  | some caps => some (String.mk (caps.headD []))
  | none => none

/-- `PGEPatterns.extract_bill_period`: first matching period pattern wins. -/
def extract_bill_period (text : String) : Option (String × String) :=
  match searchFirst PERIOD_PATTERNS text.data with
  | some caps => some (String.mk (caps.headD []), String.mk ((caps.drop 1).headD []))
  | none => none

/-- Result of `PGEPatterns.parse_bill_email` (the bill draft). -/
structure ParsedBill where
  amount : Rat
  due_date : String
  bill_period : Option (String × String)
  raw_text : String
deriving DecidableEq, Repr

/-- Python truthiness test `not result[amount-key]` on an optional float:
true for `None` and for `0.0`. -/
def pyFalsyRat : Option Rat → Bool
  | none => true
  | some a => a == 0

/-- Python truthiness test on an optional string: true for `None` and for
the empty string. -/
def pyFalsyStr : Option String → Bool
  | none => true
  | some s => s == ""

/-- `PGEPatterns.parse_bill_email`: extract all fields, then raise
ValueError (modelled as `Except.error`) if amount or due date is falsy. -/
def parse_bill_email (text : String) : Except String ParsedBill :=
  let amount := extract_amount text
  let due := extract_due_date text
  let period := extract_bill_period text
  if pyFalsyRat amount then
    Except.error "Could not extract bill amount from email"
  else if pyFalsyStr due then
    Except.error "Could not extract due date from email"
  else
    Except.ok ⟨amount.getD 0, due.getD "", period, text⟩

/- ===================== Stable sort helper (models ORDER BY) =====================

SQLite ORDER BY is modelled as a stable insertion sort with a boolean
comparison.  The ledger only ever sorts by keys that are pairwise distinct
or whose tie order is unspecified in SQLite, so stability is a modelling
choice, not a source property. -/

def insertLe {α : Type} (le : α → α → Bool) (a : α) : List α → List α
  | [] => [a]
  | b :: bs => if le a b then a :: b :: bs else b :: insertLe le a bs

def sortLe {α : Type} (le : α → α → Bool) : List α → List α
  | [] => []
  | a :: as => insertLe le a (sortLe le as)

/-- Byte-wise (code-point) lexicographic order on character lists: this is
how SQLite compares two TEXT values, hence how `ORDER BY due_date` sorts
the stored `MM/DD/YYYY` strings. -/
def charsLe : List Char → List Char → Bool
  | [], _ => true
  | _ :: _, [] => false
  | a :: as, b :: bs =>
    if a.toNat < b.toNat then true
    else if b.toNat < a.toNat then false
    else charsLe as bs

def textLe (a b : String) : Bool := charsLe a.data b.data

/- ===================== Ledger (src/database.py) ===================== -/

/-- Configuration relevant to the ledger (`config/settings.py`); the split
ratios are Python floats, modelled as exact rationals. -/
structure Settings where
  roommate_split_ratio : Rat
  my_split_ratio : Rat
deriving DecidableEq, Repr

/-- The default ratios `0.333333` and `0.666667` from `config/settings.py`. -/
def defaultSettings : Settings :=
  ⟨mkRat 333333 1000000, mkRat 666667 1000000⟩

/-- A row of the `bills` table. -/
structure BillRecord where
  id : Nat
  bill_amount : Rat
  due_date : String
  bill_period_start : Option String
  bill_period_end : Option String
  roommate_portion : Rat
  my_portion : Rat
  email_id : String
  email_subject : String
  email_date : String
  pdf_path : Option String
  pdf_generated : Bool
  pdf_sent : Bool
  venmo_link : Option String
  venmo_sent : Bool
  processed_date : Nat
  status : String
  notes : Option String
deriving DecidableEq, Repr

/-- A row of the `processing_log` table. -/
structure LogEntry where
  id : Nat
  bill_id : Option Nat
  action : String
  details : Option String
  timestamp : Nat
deriving DecidableEq, Repr

/-- Durable state of the SQLite database: the two tables plus the
AUTOINCREMENT counters and the model clock for `CURRENT_TIMESTAMP`. -/
structure LedgerState where
  bills : List BillRecord
  log : List LogEntry
  nextBillId : Nat
  nextLogId : Nat
  clock : Nat
deriving DecidableEq, Repr

/-- A fresh database as created by `_ensure_database`. -/
def LedgerState.init : LedgerState := ⟨[], [], 1, 1, 0⟩

/-- An open SQLite connection: `pending` is the state as seen inside the
implicit transaction.  `conn.commit()` makes `pending` durable; closing the
connection without committing discards `pending` (Python sqlite3 rolls back
an open transaction on close). -/
structure Conn where
  pending : LedgerState

/-- `_log_action`: INSERT INTO processing_log on the open connection. -/
def conn_log_action (c : Conn) (bill_id : Option Nat) (action : String)
    (details : Option String) : Conn :=
  let s := c.pending
  ⟨{ s with
      log := s.log ++ [⟨s.nextLogId, bill_id, action, details, s.clock⟩],
      nextLogId := s.nextLogId + 1,
      clock := s.clock + 1 }⟩

/-- The parsed bill dict handed to `add_bill` (draft plus email metadata). -/
structure BillInfo where
  amount : Rat
  due_date : String
  bill_period : Option (String × String)
  email_id : String
  email_subject : String
  email_date : String
deriving DecidableEq, Repr

/-- The `SELECT ... FROM bills WHERE bill_amount = ? AND due_date = ?`
duplicate lookup in `add_bill`. -/
def findBillByKey (bills : List BillRecord) (amount : Rat) (due : String) :
    Option BillRecord :=
  bills.find? (fun b => b.bill_amount == amount && b.due_date == due)

/-- Result of `add_bill`, modelling its `(success, message, bill_id)`
tuple: `added` is the success case carrying `lastrowid`; `duplicate` is the
failure case, carrying the fields of the existing row that the source reads
(id, email_id, processed_date, status) to build the log entry and message. -/
inductive AddResult
  | added (id : Nat)
  | duplicate (existingId : Nat) (existingEmail : String)
      (existingProcessed : Nat) (existingStatus : String)
deriving DecidableEq, Repr

/-- The new row INSERTed by `add_bill` when no duplicate is found. -/
def newRecordOf (cfg : Settings) (s : LedgerState) (info : BillInfo) : BillRecord where
  id := s.nextBillId
  bill_amount := info.amount
  due_date := info.due_date
  bill_period_start := info.bill_period.map Prod.fst
  bill_period_end := info.bill_period.map Prod.snd
  roommate_portion := info.amount * cfg.roommate_split_ratio
  my_portion := info.amount * cfg.my_split_ratio
  email_id := info.email_id
  email_subject := info.email_subject
  email_date := info.email_date
  pdf_path := none
  pdf_generated := false
  pdf_sent := false
  venmo_link := none
  venmo_sent := false
  processed_date := s.clock
  status := "pending"
  notes := some ("Added from email: " ++ info.email_subject)

/-- `BillDatabase.add_bill`.  Duplicate path: the source INSERTs a
`duplicate_detected` row into `processing_log` on the connection and then
returns WITHOUT calling `conn.commit()`; the context manager then closes
the connection, which rolls the open transaction back, so the durable state
is returned unchanged (the inserted row is bound to `_discarded` below and
dropped).  Add path: INSERT the bill, INSERT the `bill_added` log row, then
`conn.commit()` makes the pending state durable. -/
def add_bill (cfg : Settings) (s : LedgerState) (info : BillInfo) :
    AddResult × LedgerState :=
  match findBillByKey s.bills info.amount info.due_date with
  | some existing =>
    let _discarded := conn_log_action ⟨s⟩ (some existing.id) "duplicate_detected"
      (some ("Duplicate bill detected. Original email: " ++ existing.email_id ++
             ", New email: " ++ info.email_id ++ ", Status: " ++ existing.status))
    (AddResult.duplicate existing.id existing.email_id existing.processed_date
       existing.status, s)
  | none =>
    let r := newRecordOf cfg s info
    let c1 : Conn := ⟨{ s with
        bills := s.bills ++ [r],
        nextBillId := s.nextBillId + 1,
        clock := s.clock + 1 }⟩
    let c2 := conn_log_action c1 (some r.id) "bill_added"
      (some "New bill added")
    (AddResult.added r.id, c2.pending)

/-- `get_bill_by_id`: SELECT * FROM bills WHERE id = ?. -/
def get_bill_by_id (s : LedgerState) (bill_id : Nat) : Option BillRecord :=
  s.bills.find? (fun b => b.id == bill_id)

/-- `get_bills_by_status`: WHERE status = ? ORDER BY due_date ASC, the
order being byte-wise comparison of the stored date strings. -/
def get_bills_by_status (s : LedgerState) (status : String) : List BillRecord :=
  sortLe (fun a b => textLe a.due_date b.due_date)
    (s.bills.filter (fun b => b.status == status))

/-- SQL `COALESCE(?, notes)`: the provided value unless it is NULL. -/
def coalesce (x y : Option String) : Option String :=
  match x with
  | some v => some v
  | none => y

/-- `update_bill_status`: UPDATE status and notes for the matching id, log
`status_updated`, commit, and return True.  A missing id is not detected:
the UPDATE simply affects no rows and the function still returns True. -/
def update_bill_status (s : LedgerState) (bill_id : Nat) (status : String)
    (notes : Option String) : Bool × LedgerState :=
  let bills := s.bills.map (fun b =>
    if b.id == bill_id then { b with status := status, notes := coalesce notes b.notes }
    else b)
  let c := conn_log_action ⟨{ s with bills := bills }⟩ (some bill_id)
    "status_updated" (some ("Status changed to: " ++ status))
  (true, c.pending)

/-- `mark_pdf_generated`: set the flag and path, log `pdf_generated`,
commit, return True (missing ids are again not detected). -/
def mark_pdf_generated (s : LedgerState) (bill_id : Nat) (pdf_path : String) :
    Bool × LedgerState :=
  let bills := s.bills.map (fun b =>
    if b.id == bill_id then { b with pdf_generated := true, pdf_path := some pdf_path }
    else b)
  let c := conn_log_action ⟨{ s with bills := bills }⟩ (some bill_id)
    "pdf_generated" (some ("PDF saved to: " ++ pdf_path))
  (true, c.pending)

/-- `mark_pdf_sent`: set the flag, log `pdf_sent`, commit, return True. -/
def mark_pdf_sent (s : LedgerState) (bill_id : Nat) : Bool × LedgerState :=
  let bills := s.bills.map (fun b =>
    if b.id == bill_id then { b with pdf_sent := true } else b)
  let c := conn_log_action ⟨{ s with bills := bills }⟩ (some bill_id)
    "pdf_sent" (some "PDF sent to roommate")
  (true, c.pending)

/-- `mark_venmo_sent`: set the flag and link, log `venmo_sent`, commit,
return True. -/
def mark_venmo_sent (s : LedgerState) (bill_id : Nat) (venmo_link : String) :
    Bool × LedgerState :=
  let bills := s.bills.map (fun b =>
    if b.id == bill_id then { b with venmo_sent := true, venmo_link := some venmo_link }
    else b)
  let c := conn_log_action ⟨{ s with bills := bills }⟩ (some bill_id)
    "venmo_sent" (some ("Venmo link generated: " ++ venmo_link))
  (true, c.pending)

/-- One row of the `get_processing_log` result: the log entry, plus the
columns joined from `bills` in the unfiltered branch (absent in the
filtered branch, modelled as `none`). -/
structure LogView where
  entry : LogEntry
  bill_amount : Option Rat
  due_date : Option String
deriving DecidableEq, Repr

/-- Python truthiness of the optional integer argument `bill_id`:
`None` and `0` are both falsy. -/
def pyTruthyNat : Option Nat → Bool
  | none => false
  | some n => n != 0

/-- The LEFT JOIN of a log entry with its bill row. -/
def joinBill (bills : List BillRecord) (e : LogEntry) : LogView :=
  match e.bill_id.bind (fun i => bills.find? (fun b => b.id == i)) with
  | some b => ⟨e, some b.bill_amount, some b.due_date⟩
  | none => ⟨e, none, none⟩

/-- ORDER BY timestamp DESC. -/
def orderLogDesc (l : List LogEntry) : List LogEntry :=
  sortLe (fun a b => decide (b.timestamp ≤ a.timestamp)) l

/-- `get_processing_log(bill_id, limit)`: the guard is the Python truthy
test `if bill_id:`, so both `None` and `0` select the unfiltered branch
that LEFT JOINs bill data. -/
def get_processing_log (s : LedgerState) (bill_id : Option Nat) (limit : Nat) :
    List LogView :=
  if pyTruthyNat bill_id then
    ((orderLogDesc (s.log.filter (fun e => e.bill_id == bill_id))).take limit).map
      (fun e => ⟨e, none, none⟩)
  else
    ((orderLogDesc s.log).take limit).map (joinBill s.bills)

/- ===================== Ingestion driver (src/bill_processor.py) ===================== -/

/-- The content `get_email_content` returns for one Gmail message. -/
structure EmailContent where
  subject : String
  date : String
  body : String
deriving DecidableEq, Repr

/-- External behaviour of the mail collaborator and the runtime for one
fetched message: an exception raised while handling the message, or the
(possibly failed, hence `Option`) result of `get_email_content`. -/
inductive MsgStep
  | raises (emsg : String)
  | content (c : Option EmailContent)
deriving DecidableEq, Repr

/-- `GmailParser.parse_pge_bill`: None when the content fetch failed or
`parse_bill_email` raised ValueError; otherwise the parsed dict extended
with the email metadata. -/
def parse_pge_bill (message_id : String) (c : Option EmailContent) : Option BillInfo :=
  match c with
  | none => none
  | some em =>
    match parse_bill_email em.body with
    | Except.error _ => none
    | Except.ok pb =>
      some ⟨pb.amount, pb.due_date, pb.bill_period, message_id, em.subject, em.date⟩

/-- The run-summary dict built by `process_latest_bills`. -/
structure RunResults where
  processed : Nat
  duplicates : Nat
  errors : Nat
  new_bills : List Nat
  duplicate_bills : List (Rat × String)
  error_messages : List String
deriving DecidableEq, Repr

def RunResults.empty : RunResults := ⟨0, 0, 0, [], [], []⟩

/-- The body of the per-message loop in `process_latest_bills`: an
exception or a failed parse increments `errors` and records a message; a
successful `add_bill` increments `processed`; a duplicate increments
`duplicates`.  (`new_bills` keeps the ids, `duplicate_bills` the keys.) -/
def process_one_message (cfg : Settings) (acc : RunResults × LedgerState)
    (m : String × MsgStep) : RunResults × LedgerState :=
  let (res, s) := acc
  match m.2 with
  | MsgStep.raises emsg =>
    ({ res with
        errors := res.errors + 1,
        error_messages := res.error_messages ++
          ["Error processing " ++ m.1 ++ ": " ++ emsg] }, s)
  | MsgStep.content c =>
    match parse_pge_bill m.1 c with
    | none =>
      ({ res with
          errors := res.errors + 1,
          error_messages := res.error_messages ++ ["Failed to parse email " ++ m.1] }, s)
    | some info =>
      match add_bill cfg s info with
      | (AddResult.added id, s1) =>
        ({ res with
            processed := res.processed + 1,
            new_bills := res.new_bills ++ [id] }, s1)
      | (AddResult.duplicate _ _ _ _, s1) =>
        ({ res with
            duplicates := res.duplicates + 1,
            duplicate_bills := res.duplicate_bills ++ [(info.amount, info.due_date)] }, s1)

/-- `BillProcessor.process_latest_bills`: fold the per-message loop over
the fetched messages, starting from zeroed counters. -/
def process_latest_bills (cfg : Settings) (s : LedgerState)
    (msgs : List (String × MsgStep)) : RunResults × LedgerState :=
  msgs.foldl (process_one_message cfg) (RunResults.empty, s)

/- ===================== Workflow coordinator (src/scheduler.py) =====================

The per-bill loop body of the generated `monthly_automation.py` script
(`create_automation_script`, step 3).  External collaborators are modelled
by their outcomes for the processed bill. -/

/-- Outcomes of the external collaborator calls for one bill:
`email_content` is the body returned by `get_email_content` (None on
failure); `pdf_path` the result of `generate_bill_pdf`; `venmo_info_ok`
the `success` flag of `process_bill_venmo_request(auto_open=False)` used
for the email; `email_send_ok` the result of `send_bill_notification`;
`venmo_ok` and `venmo_url` the outcome of the final
`process_bill_venmo_request`. -/
structure Collaborators where
  email_content : Option String
  pdf_path : Option String
  venmo_info_ok : Bool
  email_send_ok : Bool
  venmo_ok : Bool
  venmo_url : String
deriving DecidableEq, Repr

/-- One iteration of the step-3 loop of `monthly_automation.py` for the
bill `bill_id`.  The `bill` row is fetched ONCE at the top; the later
guards `not bill[pdf_sent] and bill[pdf_generated]` read this stale row,
not the database.  `continue` on a collaborator failure returns the state
written so far. -/
def process_one_bill (col : Collaborators) (s0 : LedgerState) (bill_id : Nat) :
    LedgerState :=
  match get_bill_by_id s0 bill_id with
  | none => s0
  | some bill =>
    let afterPdf : Option LedgerState :=
      if bill.pdf_generated then some s0
      else
        match col.email_content with
        | none => none
        | some _ =>
          match col.pdf_path with
          | none => none
          | some p => some (mark_pdf_generated s0 bill_id p).2
    match afterPdf with
    | none => s0
    | some s1 =>
      let s2 :=
        if !bill.pdf_sent && bill.pdf_generated then
          if col.venmo_info_ok then
            if col.email_send_ok then (mark_pdf_sent s1 bill_id).2 else s1
          else s1
        else s1
      if col.venmo_ok then (mark_venmo_sent s2 bill_id col.venmo_url).2 else s2

/- ===================== Reference definitions and concrete inputs ===================== -/

/-- Split a character list at every slash. -/
def splitSlash : List Char → List Char → List (List Char)
  | [], acc => [acc.reverse]
  | c :: cs, acc =>
    if c == '/' then acc.reverse :: splitSlash cs [] else splitSlash cs (c :: acc)

/-- The (year, month, day) key of an `MM/DD/YYYY` string. -/
def dateKey (s : String) : Nat × Nat × Nat :=
  match splitSlash s.data [] with
  | [m, d, y] => (natOfDigits y, natOfDigits m, natOfDigits d)
  | _ => (0, 0, 0)

/-- Calendar order on `MM/DD/YYYY` strings.  Modelled from the claim
wording (calendar order of the dates, including across different years),
to be compared with the ordering the code actually produces. -/
def calendarLe (a b : String) : Bool :=
  let ka := dateKey a
  let kb := dateKey b
  decide (ka.1 < kb.1) ||
    (ka.1 == kb.1 && (decide (ka.2.1 < kb.2.1) ||
      (ka.2.1 == kb.2.1 && decide (ka.2.2 ≤ kb.2.2))))

/-- Number of stored bills with a given (amount, due date) key. -/
def countByKey (bills : List BillRecord) (amount : Rat) (due : String) : Nat :=
  (bills.filter (fun b => b.bill_amount == amount && b.due_date == due)).length

/-- A concrete parsed bill: amount 288.15 due 08/08/2025. -/
def infoA : BillInfo :=
  ⟨mkRat 28815 100, "08/08/2025", none, "msg-001", "Your PGE bill", "Fri, 1 Aug 2025"⟩

/-- The same (amount, due date) key as `infoA`, from a different email. -/
def infoA2 : BillInfo :=
  ⟨mkRat 28815 100, "08/08/2025", none, "msg-002", "Your PGE bill again", "Sat, 2 Aug 2025"⟩

/-- A bill due the following calendar year, lexicographically smaller date. -/
def infoB : BillInfo :=
  ⟨mkRat 10000 100, "01/15/2026", none, "msg-003", "Your PGE bill", "Mon, 5 Jan 2026"⟩

/-- All collaborator calls succeed. -/
def allOkCollaborators : Collaborators :=
  ⟨some "email body", some "/data/pdfs/bill.pdf", true, true, true,
   "https://venmo.example/request"⟩

/-- The durable state after adding `infoA` to a fresh database. -/
def sA : LedgerState := (add_bill defaultSettings LedgerState.init infoA).2

/-- The durable state after further adding `infoB`. -/
def sAB : LedgerState := (add_bill defaultSettings sA infoB).2

instance {ε α : Type} [DecidableEq ε] [DecidableEq α] : DecidableEq (Except ε α) :=
  fun a b =>
    match a, b with
    | Except.error x, Except.error y =>
      if h : x = y then isTrue (by rw [h])
      else isFalse (fun hh => h (by cases hh; rfl))
    | Except.error _, Except.ok _ => isFalse (fun hh => Except.noConfusion hh)
    | Except.ok _, Except.error _ => isFalse (fun hh => Except.noConfusion hh)
    | Except.ok x, Except.ok y =>
      if h : x = y then isTrue (by rw [h])
      else isFalse (fun hh => h (by cases hh; rfl))

/-- All fields of a bill record other than `status` and `notes` agree
(frame condition of `update_bill_status`). -/
def unchangedExceptStatusNotes (a b : BillRecord) : Prop :=
  b.id = a.id ∧ b.bill_amount = a.bill_amount ∧ b.due_date = a.due_date ∧
  b.bill_period_start = a.bill_period_start ∧ b.bill_period_end = a.bill_period_end ∧
  b.roommate_portion = a.roommate_portion ∧ b.my_portion = a.my_portion ∧
  b.email_id = a.email_id ∧ b.email_subject = a.email_subject ∧
  b.email_date = a.email_date ∧ b.pdf_path = a.pdf_path ∧
  b.pdf_generated = a.pdf_generated ∧ b.pdf_sent = a.pdf_sent ∧
  b.venmo_link = a.venmo_link ∧ b.venmo_sent = a.venmo_sent ∧
  b.processed_date = a.processed_date

/- ===================== Helper lemmas ===================== -/

theorem add_bill_of_found (cfg : Settings) (s : LedgerState) (info : BillInfo)
    (r : BillRecord) (h : findBillByKey s.bills info.amount info.due_date = some r) :
    add_bill cfg s info =
      (AddResult.duplicate r.id r.email_id r.processed_date r.status, s) := by
  unfold add_bill
  rw [h]

theorem add_bill_of_not_found (cfg : Settings) (s : LedgerState) (info : BillInfo)
    (h : findBillByKey s.bills info.amount info.due_date = none) :
    add_bill cfg s info = (AddResult.added s.nextBillId,
      (conn_log_action ⟨{ s with
          bills := s.bills ++ [newRecordOf cfg s info],
          nextBillId := s.nextBillId + 1,
          clock := s.clock + 1 }⟩
        (some s.nextBillId) "bill_added" (some "New bill added")).pending) := by
  unfold add_bill
  rw [h]
  rfl

theorem insertLe_perm {α : Type} (le : α → α → Bool) (a : α) :
    ∀ l : List α, (insertLe le a l).Perm (a :: l)
  | [] => List.Perm.refl _
  | b :: bs => by
    by_cases h : le a b = true
    · simp [insertLe, h]
    · simp only [insertLe, h, if_false]
      exact ((insertLe_perm le a bs).cons b).trans (List.Perm.swap a b bs)

theorem sortLe_perm {α : Type} (le : α → α → Bool) :
    ∀ l : List α, (sortLe le l).Perm l
  | [] => List.Perm.refl _
  | a :: as => (insertLe_perm le a (sortLe le as)).trans ((sortLe_perm le as).cons a)

theorem insertLe_pairwise {α : Type} {le : α → α → Bool}
    (htot : ∀ x y, le x y = true ∨ le y x = true)
    (htr : ∀ x y z, le x y = true → le y z = true → le x z = true) (a : α) :
    ∀ {l : List α}, l.Pairwise (fun x y => le x y = true) →
      (insertLe le a l).Pairwise (fun x y => le x y = true)
  | [], _ => by simp [insertLe]
  | b :: bs, hl => by
    rcases List.pairwise_cons.mp hl with ⟨hb, hbs⟩
    by_cases h : le a b = true
    · simp only [insertLe, h, if_true]
      refine List.pairwise_cons.mpr ⟨?_, hl⟩
      intro x hx
      rcases List.mem_cons.mp hx with rfl | hx
      · exact h
      · exact htr a b x h (hb x hx)
    · simp only [insertLe, h, if_false]
      refine List.pairwise_cons.mpr ⟨?_, insertLe_pairwise htot htr a hbs⟩
      intro x hx
      rcases List.mem_cons.mp ((insertLe_perm le a bs).mem_iff.mp hx) with rfl | hx2
      · rcases htot x b with h1 | h1
        · exact absurd h1 h
        · exact h1
      · exact hb x hx2

theorem sortLe_pairwise {α : Type} {le : α → α → Bool}
    (htot : ∀ x y, le x y = true ∨ le y x = true)
    (htr : ∀ x y z, le x y = true → le y z = true → le x z = true) :
    ∀ l : List α, (sortLe le l).Pairwise (fun x y => le x y = true)
  | [] => by simp [sortLe]
  | a :: as => insertLe_pairwise htot htr a (sortLe_pairwise htot htr as)

theorem charsLe_cons (a b : Char) (as bs : List Char) :
    charsLe (a :: as) (b :: bs) = true ↔
      a.toNat < b.toNat ∨ (a.toNat = b.toNat ∧ charsLe as bs = true) := by
  constructor
  · intro h
    by_cases h1 : a.toNat < b.toNat
    · exact Or.inl h1
    · by_cases h2 : b.toNat < a.toNat
      · exfalso
        simp only [charsLe, if_neg h1, if_pos h2] at h
        exact Bool.false_ne_true h
      · have he : a.toNat = b.toNat := by omega
        simp only [charsLe, if_neg h1, if_neg h2] at h
        exact Or.inr ⟨he, h⟩
  · intro h
    rcases h with h1 | ⟨he, hr⟩
    · simp only [charsLe, if_pos h1]
    · have h1 : ¬ a.toNat < b.toNat := by omega
      have h2 : ¬ b.toNat < a.toNat := by omega
      simp only [charsLe, if_neg h1, if_neg h2]
      exact hr

theorem charsLe_total : ∀ a b : List Char, charsLe a b = true ∨ charsLe b a = true
  | [], _ => Or.inl (by simp [charsLe])
  | _ :: _, [] => Or.inr (by simp [charsLe])
  | a :: as, b :: bs => by
    rcases Nat.lt_trichotomy a.toNat b.toNat with h | h | h
    · exact Or.inl ((charsLe_cons a b as bs).mpr (Or.inl h))
    · rcases charsLe_total as bs with hc | hc
      · exact Or.inl ((charsLe_cons a b as bs).mpr (Or.inr ⟨h, hc⟩))
      · exact Or.inr ((charsLe_cons b a bs as).mpr (Or.inr ⟨h.symm, hc⟩))
    · exact Or.inr ((charsLe_cons b a bs as).mpr (Or.inl h))

theorem charsLe_trans : ∀ a b c : List Char,
    charsLe a b = true → charsLe b c = true → charsLe a c = true
  | [], _, _, _, _ => by simp [charsLe]
  | _ :: _, [], _, h1, _ => by simp [charsLe] at h1
  | _ :: _, _ :: _, [], _, h2 => by simp [charsLe] at h2
  | a :: as, b :: bs, c :: cs, h1, h2 => by
    rw [charsLe_cons] at h1 h2 ⊢
    rcases h1 with h1 | ⟨he1, hr1⟩
    · rcases h2 with h2 | ⟨he2, _⟩
      · exact Or.inl (by omega)
      · exact Or.inl (by omega)
    · rcases h2 with h2 | ⟨he2, hr2⟩
      · exact Or.inl (by omega)
      · exact Or.inr ⟨by omega, charsLe_trans as bs cs hr1 hr2⟩

theorem list_map_id_of {α : Type} (f : α → α) :
    ∀ l : List α, (∀ a ∈ l, f a = a) → l.map f = l
  | [], _ => rfl
  | a :: as, h => by
    rw [List.map_cons, h a (by simp),
      list_map_id_of f as (fun x hx => h x (by simp [hx]))]

theorem joinBill_entry (bills : List BillRecord) (e : LogEntry) :
    (joinBill bills e).entry = e := by
  unfold joinBill
  cases e.bill_id.bind (fun i => bills.find? (fun b => b.id == i)) <;> rfl

/- ===================== Claim theorems ===================== -/

/-- Claim C1: calling `add_bill` twice with drafts sharing the same
(amount, due date) key, starting from any store state in which the key is
absent, leaves exactly one bill record with that key, the second call
creates no record, and the second call returns DuplicateDetected carrying
the id (and fields) of the record created by the first call. -/
theorem add_bill_idempotent_key (cfg : Settings) (s : LedgerState) (d1 d2 : BillInfo)
    (hamt : d2.amount = d1.amount) (hdue : d2.due_date = d1.due_date)
    (habs : findBillByKey s.bills d1.amount d1.due_date = none) :
    (add_bill cfg s d1).1 = AddResult.added s.nextBillId ∧
    (add_bill cfg (add_bill cfg s d1).2 d2).1 =
      AddResult.duplicate s.nextBillId d1.email_id s.clock "pending" ∧
    (add_bill cfg (add_bill cfg s d1).2 d2).2 = (add_bill cfg s d1).2 ∧
    countByKey (add_bill cfg (add_bill cfg s d1).2 d2).2.bills d1.amount d1.due_date = 1 := by
  have e1 := add_bill_of_not_found cfg s d1 habs
  have hbills1 : (add_bill cfg s d1).2.bills = s.bills ++ [newRecordOf cfg s d1] := by
    rw [e1]
    rfl
  have hkey : ((fun b => b.bill_amount == d1.amount && b.due_date == d1.due_date)
      (newRecordOf cfg s d1)) = true := by
    simp [newRecordOf]
  have hfind : findBillByKey ((add_bill cfg s d1).2).bills d2.amount d2.due_date
      = some (newRecordOf cfg s d1) := by
    rw [hbills1, hamt, hdue]
    unfold findBillByKey at habs ⊢
    rw [List.find?_append, habs, Option.none_or]
    simp [List.find?, hkey]
  have e2 := add_bill_of_found cfg (add_bill cfg s d1).2 d2 (newRecordOf cfg s d1) hfind
  refine ⟨by rw [e1], ?_, by rw [e2], ?_⟩
  · rw [e2]
    rfl
  · rw [e2]
    show countByKey (add_bill cfg s d1).2.bills d1.amount d1.due_date = 1
    rw [hbills1]
    unfold countByKey
    rw [List.filter_append]
    have hnil : s.bills.filter
        (fun b => b.bill_amount == d1.amount && b.due_date == d1.due_date) = [] := by
      rw [List.filter_eq_nil_iff]
      intro a ha hpa
      exact List.find?_eq_none.mp habs a ha hpa
    rw [hnil]
    simp [List.filter, hkey]

/-- Witness for C1 at a concrete store and drafts. -/
theorem add_bill_idempotent_key_witness :
    (add_bill defaultSettings LedgerState.init infoA).1 = AddResult.added 1 ∧
    (add_bill defaultSettings (add_bill defaultSettings LedgerState.init infoA).2 infoA2).1 =
      AddResult.duplicate 1 "msg-001" 0 "pending" ∧
    (add_bill defaultSettings (add_bill defaultSettings LedgerState.init infoA).2 infoA2).2 =
      (add_bill defaultSettings LedgerState.init infoA).2 ∧
    countByKey
      (add_bill defaultSettings (add_bill defaultSettings LedgerState.init infoA).2 infoA2).2.bills
      (mkRat 28815 100) "08/08/2025" = 1 :=
  add_bill_idempotent_key defaultSettings LedgerState.init infoA infoA2 rfl rfl rfl

/-- Claim C2 (code bug, evaluated at the failing input): when `add_bill`
hits a duplicate it INSERTs a `duplicate_detected` row on the connection
(fourth conjunct: the pending state of the connection holds the entry) but
returns before `conn.commit()`, so the close of the connection rolls the
insert back and the durable log keeps NO `duplicate_detected` entry (second
and third conjuncts: the durable state is unchanged). -/
theorem add_bill_duplicate_log_not_durable :
    (add_bill defaultSettings sA infoA2).1 = AddResult.duplicate 1 "msg-001" 0 "pending" ∧
    (add_bill defaultSettings sA infoA2).2 = sA ∧
    (add_bill defaultSettings sA infoA2).2.log.filter
      (fun e => e.action == "duplicate_detected") = [] ∧
    ((conn_log_action ⟨sA⟩ (some 1) "duplicate_detected"
        (some ("Duplicate bill detected. Original email: msg-001, " ++
               "New email: msg-002, Status: pending"))).pending.log.filter
      (fun e => e.action == "duplicate_detected")).length = 1 :=
  ⟨by decide, rfl, by decide, by decide⟩

/-- Claim C3: whenever `add_bill` actually inserts a record and the two
configured split ratios sum to one, the stored roommate portion plus the
stored my portion equals the stored bill amount exactly (amounts are
modelled as exact rationals). -/
theorem add_bill_split_conservation (cfg : Settings) (s : LedgerState) (info : BillInfo)
    (hsum : cfg.roommate_split_ratio + cfg.my_split_ratio = 1)
    (hadded : ∃ id, (add_bill cfg s info).1 = AddResult.added id) :
    ∃ b, (add_bill cfg s info).2.bills = s.bills ++ [b] ∧
      b.roommate_portion + b.my_portion = b.bill_amount := by
  obtain ⟨id, hid⟩ := hadded
  cases hfind : findBillByKey s.bills info.amount info.due_date with
  | some r =>
    rw [add_bill_of_found cfg s info r hfind] at hid
    exact absurd hid (by simp)
  | none =>
    refine ⟨newRecordOf cfg s info, ?_, ?_⟩
    · rw [add_bill_of_not_found cfg s info hfind]
      rfl
    · show info.amount * cfg.roommate_split_ratio + info.amount * cfg.my_split_ratio
        = info.amount
      rw [← mul_add, hsum, mul_one]

/-- Witness for C3 with the default ratios 0.333333 and 0.666667. -/
theorem add_bill_split_conservation_witness :
    ∃ b, (add_bill defaultSettings LedgerState.init infoA).2.bills =
        LedgerState.init.bills ++ [b] ∧
      b.roommate_portion + b.my_portion = b.bill_amount :=
  add_bill_split_conservation defaultSettings LedgerState.init infoA
    (by show mkRat 333333 1000000 + mkRat 666667 1000000 = 1
        rw [Rat.mkRat_eq_div, Rat.mkRat_eq_div]
        norm_num)
    ⟨1, rfl⟩

/-- Counterexample to claim C4: two pending bills, inserted with due dates
08/08/2025 then 01/15/2026, come back from `get_bills_by_status` in the
byte-wise string order 01/15/2026 before 08/08/2025, which is NOT ascending
calendar order (01/15/2026 is the later date). -/
theorem get_bills_by_status_not_calendar_order :
    (get_bills_by_status sAB "pending").map (fun b => b.due_date) =
      ["01/15/2026", "08/08/2025"] ∧
    calendarLe "01/15/2026" "08/08/2025" = false := by decide

/-- Claim C4 (amended): `get_bills_by_status` returns exactly the records
with the requested status, sorted ascending by the byte-wise lexicographic
order of the stored `MM/DD/YYYY` due-date strings; this coincides with
calendar order only for dates within a single year. -/
theorem get_bills_by_status_sorted_lex (s : LedgerState) (st : String) :
    (get_bills_by_status s st).Pairwise
      (fun a b => textLe a.due_date b.due_date = true) ∧
    (get_bills_by_status s st).Perm
      (s.bills.filter (fun b => b.status == st)) := by
  constructor
  · exact sortLe_pairwise
      (fun x y => charsLe_total x.due_date.data y.due_date.data)
      (fun x y z => charsLe_trans x.due_date.data y.due_date.data z.due_date.data)
      (s.bills.filter (fun b => b.status == st))
  · exact sortLe_perm _ _

/-- Claim C5 (code bug, evaluated at the failing input): one full pass of
the generated monthly automation script over a fresh bill with all three
flags false and every collaborator succeeding leaves pdf_generated and
venmo_sent true but pdf_sent FALSE, because the email-notification guard
reads the stale bill row fetched before `mark_pdf_generated`.  Status stays
pending throughout, and flips to completed only on an explicit
`update_bill_status` call. -/
theorem coordinator_one_pass_flags :
    (get_bill_by_id sA 1).map
      (fun b => (b.pdf_generated, b.pdf_sent, b.venmo_sent, b.status)) =
      some (false, false, false, "pending") ∧
    (get_bill_by_id (process_one_bill allOkCollaborators sA 1) 1).map
      (fun b => (b.pdf_generated, b.pdf_sent, b.venmo_sent, b.status)) =
      some (true, false, true, "pending") ∧
    (get_bill_by_id (update_bill_status (process_one_bill allOkCollaborators sA 1) 1
        "completed" none).2 1).map (fun b => b.status) = some "completed" :=
  ⟨by decide, by decide, by decide⟩

/-- Counterexample to claim C6: on an empty store no record with id 7
exists, yet every mutating operation reports success (True) instead of a
NotFound failure. -/
theorem mutators_missing_id_return_ok :
    get_bill_by_id LedgerState.init 7 = none ∧
    (update_bill_status LedgerState.init 7 "completed" none).1 = true ∧
    (mark_pdf_generated LedgerState.init 7 "/tmp/bill.pdf").1 = true ∧
    (mark_pdf_sent LedgerState.init 7).1 = true ∧
    (mark_venmo_sent LedgerState.init 7 "link").1 = true := by decide

/-- Claim C6 (amended): the four mutating operations always return True,
whether or not a record with the given id exists; when no record matches,
no bill row is changed (the UPDATE affects zero rows), but the call still
reports success. -/
theorem mutators_always_return_ok (s : LedgerState) (bid : Nat) (st : String)
    (notes : Option String) (path link : String) :
    (update_bill_status s bid st notes).1 = true ∧
    (mark_pdf_generated s bid path).1 = true ∧
    (mark_pdf_sent s bid).1 = true ∧
    (mark_venmo_sent s bid link).1 = true ∧
    ((∀ b ∈ s.bills, b.id ≠ bid) →
      (update_bill_status s bid st notes).2.bills = s.bills ∧
      (mark_pdf_generated s bid path).2.bills = s.bills ∧
      (mark_pdf_sent s bid).2.bills = s.bills ∧
      (mark_venmo_sent s bid link).2.bills = s.bills) := by
  refine ⟨rfl, rfl, rfl, rfl, ?_⟩
  intro h
  have hfalse : ∀ b ∈ s.bills, (b.id == bid) = false := by
    intro b hb
    simpa using h b hb
  refine ⟨?_, ?_, ?_, ?_⟩ <;>
    · show s.bills.map _ = s.bills
      apply list_map_id_of
      intro b hb
      simp [hfalse b hb]

/-- Witness for C6 (amended) on the empty store. -/
theorem mutators_always_return_ok_witness :
    (update_bill_status LedgerState.init 1 "completed" none).1 = true ∧
    (mark_pdf_generated LedgerState.init 1 "/tmp/bill.pdf").1 = true ∧
    (mark_pdf_sent LedgerState.init 1).1 = true ∧
    (mark_venmo_sent LedgerState.init 1 "link").1 = true ∧
    ((update_bill_status LedgerState.init 1 "completed" none).2.bills =
        LedgerState.init.bills ∧
      (mark_pdf_generated LedgerState.init 1 "/tmp/bill.pdf").2.bills =
        LedgerState.init.bills ∧
      (mark_pdf_sent LedgerState.init 1).2.bills = LedgerState.init.bills ∧
      (mark_venmo_sent LedgerState.init 1 "link").2.bills = LedgerState.init.bills) := by
  have h := mutators_always_return_ok LedgerState.init 1 "completed" none "/tmp/bill.pdf" "link"
  exact ⟨h.1, h.2.1, h.2.2.1, h.2.2.2.1,
    h.2.2.2.2 (by intro b hb; simp [LedgerState.init] at hb)⟩

/-- Claim C10: passing bill id 0 to `get_processing_log` is treated as an
absent filter (Python falsy test), so the call returns the unfiltered,
joined global log; that log is ordered most recent first (timestamps
non-increasing). -/
theorem get_processing_log_zero_is_unfiltered (s : LedgerState) (limit : Nat) :
    get_processing_log s (some 0) limit = get_processing_log s none limit ∧
    ((get_processing_log s (some 0) limit).map (fun v => v.entry.timestamp)).Pairwise
      (fun x y => y ≤ x) := by
  constructor
  · rfl
  · show ((((orderLogDesc s.log).take limit).map (joinBill s.bills)).map
      (fun v => v.entry.timestamp)).Pairwise (fun x y => y ≤ x)
    have hs : (orderLogDesc s.log).Pairwise
        (fun a b => decide (b.timestamp ≤ a.timestamp) = true) :=
      sortLe_pairwise
        (fun x y => by
          rcases Nat.le_total y.timestamp x.timestamp with h | h
          · exact Or.inl (by simpa using h)
          · exact Or.inr (by simpa using h))
        (fun x y z hxy hyz => by
          simp only [decide_eq_true_eq] at hxy hyz ⊢
          omega)
        s.log
    have ht := List.Pairwise.sublist (List.take_sublist limit (orderLogDesc s.log)) hs
    rw [List.pairwise_map, List.pairwise_map]
    refine ht.imp ?_
    intro a b hab
    simp only [joinBill_entry]
    simpa using hab

/-- Claim C9: `update_bill_status` changes only the status and notes of the
record whose id matches (notes only when a note is provided), and leaves
every other record, and every other field of the matching record,
unchanged. -/
theorem update_bill_status_frame (s : LedgerState) (bid : Nat) (st : String)
    (notes : Option String) :
    (update_bill_status s bid st notes).2.bills.length = s.bills.length ∧
    ∀ i (h1 : i < s.bills.length)
      (h2 : i < (update_bill_status s bid st notes).2.bills.length),
      (((s.bills.get ⟨i, h1⟩).id = bid →
        ((update_bill_status s bid st notes).2.bills.get ⟨i, h2⟩).status = st ∧
        (∀ n, notes = some n →
          ((update_bill_status s bid st notes).2.bills.get ⟨i, h2⟩).notes = some n) ∧
        (notes = none →
          ((update_bill_status s bid st notes).2.bills.get ⟨i, h2⟩).notes =
            (s.bills.get ⟨i, h1⟩).notes) ∧
        unchangedExceptStatusNotes (s.bills.get ⟨i, h1⟩)
          ((update_bill_status s bid st notes).2.bills.get ⟨i, h2⟩)) ∧
      ((s.bills.get ⟨i, h1⟩).id ≠ bid →
        (update_bill_status s bid st notes).2.bills.get ⟨i, h2⟩ = s.bills.get ⟨i, h1⟩)) := by
  constructor
  · show (s.bills.map _).length = s.bills.length
    rw [List.length_map]
  · intro i h1 h2
    have hget : (update_bill_status s bid st notes).2.bills.get ⟨i, h2⟩ =
        (if (s.bills.get ⟨i, h1⟩).id == bid then
            { s.bills.get ⟨i, h1⟩ with
              status := st,
              notes := coalesce notes (s.bills.get ⟨i, h1⟩).notes }
          else s.bills.get ⟨i, h1⟩) := by
      show (s.bills.map _).get ⟨i, h2⟩ = _
      simp [List.get_eq_getElem, List.getElem_map]
    constructor
    · intro hid
      have hbeq : ((s.bills.get ⟨i, h1⟩).id == bid) = true := by simpa using hid
      rw [hget, if_pos hbeq]
      refine ⟨rfl, ?_, ?_, ?_⟩
      · intro n hn
        rw [hn]
        rfl
      · intro hn
        rw [hn]
        rfl
      · exact ⟨rfl, rfl, rfl, rfl, rfl, rfl, rfl, rfl, rfl, rfl, rfl, rfl, rfl, rfl, rfl, rfl⟩
    · intro hid
      have hbeq : ¬ ((s.bills.get ⟨i, h1⟩).id == bid) = true := by simpa using hid
      rw [hget, if_neg hbeq]

/-- Witness for C9 on a store with one bill (id 1). -/
theorem update_bill_status_frame_witness :
    (update_bill_status sA 1 "completed" (some "done")).2.bills.length =
      sA.bills.length ∧
    ((update_bill_status sA 1 "completed" (some "done")).2.bills.get
      ⟨0, by decide⟩).status = "completed" ∧
    ((update_bill_status sA 1 "completed" (some "done")).2.bills.get
      ⟨0, by decide⟩).notes = some "done" ∧
    ((update_bill_status sA 1 "completed" (some "done")).2.bills.get
      ⟨0, by decide⟩).due_date = (sA.bills.get ⟨0, by decide⟩).due_date := by
  have h := update_bill_status_frame sA 1 "completed" (some "done")
  have h0 := h.2 0 (by decide) (by decide)
  have hid : (sA.bills.get ⟨0, by decide⟩).id = 1 := by decide
  have hm := h0.1 hid
  exact ⟨h.1, hm.1, hm.2.1 "done" rfl, hm.2.2.2.2.2.1⟩

/-- Each loop iteration of `process_latest_bills` increments exactly one of
the three counters and extends the matching detail list by one entry. -/
theorem process_one_message_counts (cfg : Settings) (res : RunResults)
    (s : LedgerState) (m : String × MsgStep)
    (h1 : res.error_messages.length = res.errors)
    (h2 : res.new_bills.length = res.processed)
    (h3 : res.duplicate_bills.length = res.duplicates) :
    (process_one_message cfg (res, s) m).1.processed +
        (process_one_message cfg (res, s) m).1.duplicates +
        (process_one_message cfg (res, s) m).1.errors =
      res.processed + res.duplicates + res.errors + 1 ∧
    (process_one_message cfg (res, s) m).1.error_messages.length =
      (process_one_message cfg (res, s) m).1.errors ∧
    (process_one_message cfg (res, s) m).1.new_bills.length =
      (process_one_message cfg (res, s) m).1.processed ∧
    (process_one_message cfg (res, s) m).1.duplicate_bills.length =
      (process_one_message cfg (res, s) m).1.duplicates := by
  obtain ⟨mid, mstep⟩ := m
  cases mstep with
  | raises emsg =>
    simp only [process_one_message]
    refine ⟨?_, ?_, ?_, ?_⟩ <;> (try simp [h1, h2, h3]) <;> omega
  | content c =>
    cases hp : parse_pge_bill mid c with
    | none =>
      simp only [process_one_message, hp]
      refine ⟨?_, ?_, ?_, ?_⟩ <;> (try simp [h1, h2, h3]) <;> omega
    | some info =>
      cases hadd : add_bill cfg s info with
      | mk r s2 =>
        cases r with
        | added id =>
          simp only [process_one_message, hp, hadd]
          refine ⟨?_, ?_, ?_, ?_⟩ <;> (try simp [h1, h2, h3]) <;> omega
        | duplicate eid eem epr est =>
          simp only [process_one_message, hp, hadd]
          refine ⟨?_, ?_, ?_, ?_⟩ <;> (try simp [h1, h2, h3]) <;> omega

/-- Folding the per-message loop preserves the summary invariants and adds
one count per message. -/
theorem process_fold_counts (cfg : Settings) :
    ∀ (msgs : List (String × MsgStep)) (res : RunResults) (s : LedgerState),
      res.error_messages.length = res.errors →
      res.new_bills.length = res.processed →
      res.duplicate_bills.length = res.duplicates →
      (msgs.foldl (process_one_message cfg) (res, s)).1.processed +
          (msgs.foldl (process_one_message cfg) (res, s)).1.duplicates +
          (msgs.foldl (process_one_message cfg) (res, s)).1.errors =
        res.processed + res.duplicates + res.errors + msgs.length ∧
      (msgs.foldl (process_one_message cfg) (res, s)).1.error_messages.length =
        (msgs.foldl (process_one_message cfg) (res, s)).1.errors ∧
      (msgs.foldl (process_one_message cfg) (res, s)).1.new_bills.length =
        (msgs.foldl (process_one_message cfg) (res, s)).1.processed ∧
      (msgs.foldl (process_one_message cfg) (res, s)).1.duplicate_bills.length =
        (msgs.foldl (process_one_message cfg) (res, s)).1.duplicates
  | [], res, s, h1, h2, h3 => ⟨by simp, h1, h2, h3⟩
  | m :: ms, res, s, h1, h2, h3 => by
    rw [List.foldl_cons]
    obtain ⟨hc, hd1, hd2, hd3⟩ := process_one_message_counts cfg res s m h1 h2 h3
    obtain ⟨ihc, ih1, ih2, ih3⟩ := process_fold_counts cfg ms
      (process_one_message cfg (res, s) m).1
      (process_one_message cfg (res, s) m).2 hd1 hd2 hd3
    have heta : ((process_one_message cfg (res, s) m).1,
        (process_one_message cfg (res, s) m).2) = process_one_message cfg (res, s) m := rfl
    rw [heta] at ihc ih1 ih2 ih3
    refine ⟨?_, ih1, ih2, ih3⟩
    simp only [List.length_cons]
    omega

/-- Claim C8: in every run, each fetched message is counted in exactly one
of processed, duplicates, errors (the three counters sum to the number of
messages), every counted error carries one recorded message, every
processed message one recorded new bill, and every duplicate one recorded
duplicate-bill entry — so duplicates are reported distinctly from failures
and no message is silently dropped. -/
theorem run_summary_conservation (cfg : Settings) (s : LedgerState)
    (msgs : List (String × MsgStep)) :
    (process_latest_bills cfg s msgs).1.processed +
        (process_latest_bills cfg s msgs).1.duplicates +
        (process_latest_bills cfg s msgs).1.errors = msgs.length ∧
    (process_latest_bills cfg s msgs).1.error_messages.length =
      (process_latest_bills cfg s msgs).1.errors ∧
    (process_latest_bills cfg s msgs).1.new_bills.length =
      (process_latest_bills cfg s msgs).1.processed ∧
    (process_latest_bills cfg s msgs).1.duplicate_bills.length =
      (process_latest_bills cfg s msgs).1.duplicates := by
  have h := process_fold_counts cfg msgs RunResults.empty s rfl rfl rfl
  simpa [process_latest_bills, RunResults.empty] using h

theorem takeLit_length : ∀ (ls s r : List Char),
    takeLit ls s = some r → s.length = r.length + ls.length
  | [], s, r, h => by
    simp only [takeLit, Option.some.injEq] at h
    simp [h]
  | _ :: _, [], r, h => by simp [takeLit] at h
  | l :: ls, c :: cs, r, h => by
    by_cases hc : lowerEq l c = true
    · simp only [takeLit, hc, if_true] at h
      have := takeLit_length ls cs r h
      simp only [List.length_cons]
      omega
    · simp [takeLit, hc] at h

theorem takeRep_length : ∀ (n : Nat) (cl : CClass) (s r : List Char),
    takeRep n cl s = some r → s.length = r.length + n
  | 0, _, s, r, h => by
    simp only [takeRep, Option.some.injEq] at h
    simp [h]
  | _ + 1, _, [], r, h => by simp [takeRep] at h
  | n + 1, cl, c :: cs, r, h => by
    by_cases hc : inClass cl c = true
    · simp only [takeRep, hc, if_true] at h
      have := takeRep_length n cl cs r h
      simp only [List.length_cons]
      omega
    · simp [takeRep, hc] at h

theorem takeStar_length_le (cl : CClass) : ∀ s : List Char,
    (takeStar cl s).length ≤ s.length
  | [] => Nat.le_refl _
  | c :: cs => by
    by_cases hc : inClass cl c = true
    · simp only [takeStar, hc, if_true]
      exact Nat.le_trans (takeStar_length_le cl cs) (by simp)
    · simp [takeStar, hc]

theorem takePlus_length_lt (cl : CClass) : ∀ (s r : List Char),
    takePlus cl s = some r → r.length < s.length
  | [], r, h => by simp [takePlus] at h
  | c :: cs, r, h => by
    by_cases hc : inClass cl c = true
    · simp only [takePlus, hc, if_true, Option.some.injEq] at h
      rw [← h]
      exact Nat.lt_succ_of_le (takeStar_length_le cl cs)
    · simp [takePlus, hc] at h

theorem matchTok_length_le (t : Tok) (s r : List Char)
    (h : matchTok t s = some r) : r.length ≤ s.length := by
  cases t with
  | lit ls =>
    have := takeLit_length ls s r (by simpa [matchTok] using h)
    omega
  | star cl =>
    simp only [matchTok, Option.some.injEq] at h
    rw [← h]
    exact takeStar_length_le cl s
  | plus cl =>
    exact Nat.le_of_lt (takePlus_length_lt cl s r (by simpa [matchTok] using h))
  | rep n cl =>
    have := takeRep_length n cl s r (by simpa [matchTok] using h)
    omega

theorem matchToks_cons_some {t : Tok} {ts : List Tok} {s r : List Char}
    (h : matchToks (t :: ts) s = some r) :
    ∃ m, matchTok t s = some m ∧ matchToks ts m = some r := by
  cases hm : matchTok t s with
  | none =>
    simp only [matchToks] at h
    rw [hm] at h
    cases h
  | some m =>
    simp only [matchToks] at h
    rw [hm] at h
    exact ⟨m, rfl, h⟩

theorem matchToks_length_le : ∀ (ts : List Tok) (s r : List Char),
    matchToks ts s = some r → r.length ≤ s.length
  | [], s, r, h => by
    simp only [matchToks, Option.some.injEq] at h
    simp [h]
  | t :: ts, s, r, h => by
    obtain ⟨m, hm, h2⟩ := matchToks_cons_some h
    exact Nat.le_trans (matchToks_length_le ts m r h2) (matchTok_length_le t s m hm)

/-- Every date-group match consumes exactly ten characters
(two digits, slash, two digits, slash, four digits). -/
theorem matchToks_dateGroup_length (s r : List Char)
    (h : matchToks dateGroup s = some r) : s.length = r.length + 10 := by
  rw [dateGroup] at h
  obtain ⟨m1, hm1, h⟩ := matchToks_cons_some h
  obtain ⟨m2, hm2, h⟩ := matchToks_cons_some h
  obtain ⟨m3, hm3, h⟩ := matchToks_cons_some h
  obtain ⟨m4, hm4, h⟩ := matchToks_cons_some h
  obtain ⟨m5, hm5, h⟩ := matchToks_cons_some h
  have hr : m5 = r := by simpa [matchToks] using h
  have l1 := takeRep_length 2 CClass.digit s m1 (by simpa [matchTok] using hm1)
  have l2 := takeLit_length ['/'] m1 m2 (by simpa [matchTok] using hm2)
  have l3 := takeRep_length 2 CClass.digit m2 m3 (by simpa [matchTok] using hm3)
  have l4 := takeLit_length ['/'] m3 m4 (by simpa [matchTok] using hm4)
  have l5 := takeRep_length 4 CClass.digit m4 m5 (by simpa [matchTok] using hm5)
  subst hr
  simp only [List.length_cons, List.length_nil] at l2 l4
  omega

/-- If every group of a pattern is the date group, a successful match at a
position produces one capture per group, each exactly ten characters. -/
theorem runSegs_dateGroup_caps : ∀ (segs : List Seg) (s : List Char)
    (caps : List (List Char)),
    runSegs segs s = some caps →
    (∀ sg ∈ segs, sg.isGroup = true → sg.toks = dateGroup) →
    caps.length = segs.countP (fun sg => sg.isGroup) ∧ ∀ c ∈ caps, c.length = 10
  | [], s, caps, h, _ => by
    simp only [runSegs, Option.some.injEq] at h
    subst h
    simp
  | sg :: rest, s, caps, h, hg => by
    simp only [runSegs] at h
    split at h
    · cases h
    · rename_i r h1
      split at h
      · cases h
      · rename_i caps2 h2
        have hcaps := Option.some.inj h
        have IH := runSegs_dateGroup_caps rest r caps2 h2
          (fun x hx hgx => hg x (by simp [hx]) hgx)
        by_cases hig : sg.isGroup = true
        · have htoks := hg sg (by simp) hig
          simp only [hig, if_true] at hcaps
          have hlen10 : s.length = r.length + 10 :=
            matchToks_dateGroup_length s r (by rw [← htoks]; exact h1)
          rw [← hcaps]
          constructor
          · simp only [List.countP_cons, hig, List.length_cons, IH.1]
            simp
          · intro c hc
            rcases List.mem_cons.mp hc with rfl | hc2
            · rw [List.length_take]
              omega
            · exact IH.2 c hc2
        · have hig2 : sg.isGroup = false := by
            revert hig
            cases sg.isGroup <;> simp
          simp only [hig2, if_false] at hcaps
          rw [← hcaps]
          refine ⟨?_, IH.2⟩
          have hcount : List.countP (fun sg => sg.isGroup) (sg :: rest) =
              List.countP (fun sg => sg.isGroup) rest := by
            simp [List.countP_cons, hig2]
          rw [hcount]
          exact IH.1

theorem searchPat_some : ∀ (p : List Seg) (s : List Char) (caps : List (List Char)),
    searchPat p s = some caps → ∃ t : List Char, runSegs p t = some caps
  | p, [], caps, h => ⟨[], by simpa [searchPat] using h⟩
  | p, c :: cs, caps, h => by
    simp only [searchPat] at h
    cases h1 : runSegs p (c :: cs) with
    | some caps2 =>
      rw [h1] at h
      exact ⟨c :: cs, h1.trans h⟩
    | none =>
      rw [h1] at h
      exact searchPat_some p cs caps h

theorem searchFirst_some : ∀ (ps : List (List Seg)) (s : List Char)
    (caps : List (List Char)),
    searchFirst ps s = some caps → ∃ p ∈ ps, searchPat p s = some caps
  | [], s, caps, h => by simp [searchFirst] at h
  | q :: ps, s, caps, h => by
    simp only [searchFirst] at h
    cases h1 : searchPat q s with
    | some caps2 =>
      rw [h1] at h
      exact ⟨q, by simp, h1.trans h⟩
    | none =>
      rw [h1] at h
      obtain ⟨p, hp, hpat⟩ := searchFirst_some ps s caps h
      exact ⟨p, by simp [hp], hpat⟩

theorem searchFirst_eq_none_iff : ∀ (ps : List (List Seg)) (s : List Char),
    searchFirst ps s = none ↔ ∀ p ∈ ps, searchPat p s = none
  | [], s => by simp [searchFirst]
  | q :: ps, s => by
    simp only [searchFirst]
    cases h1 : searchPat q s with
    | some caps => simp [List.forall_mem_cons, h1]
    | none =>
      constructor
      · intro h p hp
        rcases List.mem_cons.mp hp with rfl | hp2
        · exact h1
        · exact (searchFirst_eq_none_iff ps s).mp h p hp2
      · intro hall
        exact (searchFirst_eq_none_iff ps s).mpr (fun p hp => hall p (by simp [hp]))

/-- A successfully extracted due date is always the ten characters of an
`MM/DD/YYYY` capture. -/
theorem extract_due_date_length (text : String) (d : String)
    (h : extract_due_date text = some d) : d.data.length = 10 := by
  unfold extract_due_date at h
  cases hs : searchFirst DATE_PATTERNS text.data with
  | none =>
    rw [hs] at h
    cases h
  | some caps =>
    rw [hs] at h
    have hd : d = String.mk (caps.headD []) := (Option.some.inj h).symm
    obtain ⟨p, hp, hpat⟩ := searchFirst_some DATE_PATTERNS text.data caps hs
    obtain ⟨t, hrun⟩ := searchPat_some p text.data caps hpat
    have hall : ∀ q ∈ DATE_PATTERNS,
        (∀ sg ∈ q, sg.isGroup = true → sg.toks = dateGroup) ∧
        q.countP (fun sg => sg.isGroup) = 1 := by decide
    obtain ⟨hlen, hc10⟩ := runSegs_dateGroup_caps p t caps hrun (hall p hp).1
    rw [(hall p hp).2] at hlen
    obtain ⟨c, hc⟩ := List.length_eq_one.mp hlen
    subst hc
    rw [hd]
    exact hc10 c (by simp)

theorem extract_due_date_ne_empty (text : String) (d : String)
    (h : extract_due_date text = some d) : d ≠ "" := by
  intro he
  have hl := extract_due_date_length text d h
  rw [he] at hl
  exact absurd hl (by decide)

/-- Counterexample to claim C7: on a text where an amount rule DOES match
(capturing 0.00) and a due-date rule matches, extraction still fails with
the missing-amount error, because the validation is a Python truthiness
test and the float 0.0 is falsy. -/
theorem parse_bill_email_zero_amount_counterexample :
    extract_amount "Amount Due: $0.00 Payment due date: 01/15/2026" = some 0 ∧
    extract_due_date "Amount Due: $0.00 Payment due date: 01/15/2026" =
      some "01/15/2026" ∧
    extract_bill_period "Amount Due: $0.00 Payment due date: 01/15/2026" = none ∧
    parse_bill_email "Amount Due: $0.00 Payment due date: 01/15/2026" =
      Except.error "Could not extract bill amount from email" := by decide

/-- Claim C7 (amended): `parse_bill_email` raises the missing-amount error
when no amount pattern matches (and also when the matched amount is 0.00,
see the counterexample); raises the missing-due-date error when an amount
matched with a nonzero value but no date pattern matches; and succeeds when
an amount matched with nonzero value and a date matched, whether or not any
billing-period pattern matches (the period is then simply absent). -/
theorem parse_bill_email_cases (text : String) :
    ((∀ p ∈ AMOUNT_PATTERNS, searchPat p text.data = none) →
      parse_bill_email text =
        Except.error "Could not extract bill amount from email") ∧
    (∀ a, extract_amount text = some a → a ≠ 0 →
      (∀ p ∈ DATE_PATTERNS, searchPat p text.data = none) →
      parse_bill_email text =
        Except.error "Could not extract due date from email") ∧
    (∀ a d, extract_amount text = some a → a ≠ 0 → extract_due_date text = some d →
      parse_bill_email text = Except.ok ⟨a, d, extract_bill_period text, text⟩) := by
  refine ⟨?_, ?_, ?_⟩
  · intro hnone
    have hA : extract_amount text = none := by
      unfold extract_amount
      rw [(searchFirst_eq_none_iff AMOUNT_PATTERNS text.data).mpr hnone]
    simp [parse_bill_email, hA, pyFalsyRat]
  · intro a ha hane hnone
    have hD : extract_due_date text = none := by
      unfold extract_due_date
      rw [(searchFirst_eq_none_iff DATE_PATTERNS text.data).mpr hnone]
    have hfa : (a == 0) = false := by simpa using hane
    simp [parse_bill_email, ha, hD, pyFalsyRat, pyFalsyStr, hfa]
  · intro a d ha hane hd
    have hfa : (a == 0) = false := by simpa using hane
    have hfd : (d == "") = false := by
      simpa using extract_due_date_ne_empty text d hd
    simp [parse_bill_email, ha, hd, pyFalsyRat, pyFalsyStr, hfa, hfd]

/-- Witness for C7 (amended) on a concrete text with amount and due date
but no billing period. -/
theorem parse_bill_email_cases_witness :
    parse_bill_email "Amount Due: $288.15 Payment due date: 08/08/2025" =
      Except.ok ⟨mkRat 28815 100, "08/08/2025", none,
        "Amount Due: $288.15 Payment due date: 08/08/2025"⟩ := by
  have h := (parse_bill_email_cases
      "Amount Due: $288.15 Payment due date: 08/08/2025").2.2
    (mkRat 28815 100) "08/08/2025" (by decide) (by decide) (by decide)
  have hper : extract_bill_period
      "Amount Due: $288.15 Payment due date: 08/08/2025" = none := by decide
  rw [hper] at h
  exact h
